import Mathlib

/-
Verification of a tunable-consistency replicated key-value store
(Dynamo-style quorum replication).  The repository has two variants of
the server: `main.go` (handlers putHandler / getHandler / replicateHandler /
getReplicaHandler / configHandler) and a second source file (handlers
setHandler / getHandler / replicateHandler / getReplicaHandler /
configHandler / localReadHandler).  Both are embedded below; where they
differ (write coordination) each gets its own definition, named after its
handler.  Machine integers (Go int and int64, 64-bit) are modelled as Int
with explicit range checks where the code performs them (strconv parsing);
no arithmetic in the handlers themselves can overflow in a way the claims
touch, and quorum counters are small Nat counts cast to Int for the
comparisons the code makes against the configured W and R.
-/

namespace KV

/-- Wire entity: value plus int64 timestamp, from `type Entry struct`. -/
structure Entry where
  Value : String
  Timestamp : Int
deriving DecidableEq, Repr

/-- The in-memory map of `type Store struct` (the mutex only serialises
access; the sequential semantics is the map itself), modelled as an
association list with at most one binding per key. -/
structure Store where
  data : List (String × Entry)
deriving DecidableEq, Repr

def listFind : List (String × Entry) → String → Option Entry
  | [], _ => none
  | (k1, e) :: rest, k => if k1 = k then some e else listFind rest k

def listPut : List (String × Entry) → String → Entry → List (String × Entry)
  | [], k, e => [(k, e)]
  | (k1, e1) :: rest, k, e =>
      if k1 = k then (k, e) :: rest else (k1, e1) :: listPut rest k e

/-- `svc.data[key]` two-result map read. -/
def Store.lookup (s : Store) (k : String) : Option Entry :=
  listFind s.data k

/-- `svc.data[key] = entry` map assignment. -/
def Store.insert (s : Store) (k : String) (e : Entry) : Store :=
  ⟨listPut s.data k e⟩

/-- The conditional apply used by replicateHandler in both variants:
`if e, ok := svc.data[key]; !ok || ts > e.Timestamp { svc.data[key] = ... }`.
Returns the new store and whether the candidate was applied. -/
def applyIfNewer (s : Store) (k : String) (c : Entry) : Store × Bool :=
  match s.lookup k with
  | none => (s.insert k c, true)
  | some e => if c.Timestamp > e.Timestamp then (s.insert k c, true) else (s, false)

/-- Node role: `isLeader bool`. -/
inductive Role where
  | Leader
  | Peer
deriving DecidableEq, Repr

/-- Node configuration: the package-level `peers`, `isLeader`, `N, R, W`. -/
structure Config where
  role : Role
  peers : List String
  N : Int
  R : Int
  W : Int
deriving DecidableEq, Repr

/-- Go `strconv.ParseInt(s, 10, 64)` restricted to what the code needs:
optional sign, one or more decimal digits, value within the int64 range;
anything else (including range overflow, where Go returns a non-nil
ErrRange) is an error, i.e. `none`. -/
def digitsToNat (l : List Char) : Nat :=
  l.foldl (fun n c => 10 * n + (c.toNat - 48)) 0

def parseInt64 (s : String) : Option Int :=
  let p : Bool × List Char :=
    match s.data with
    | '+' :: rest => (false, rest)
    | '-' :: rest => (true, rest)
    | cs => (false, cs)
  match p with
  | (neg, ds) =>
    if ds.isEmpty then none
    else if ds.all Char.isDigit then
      let n : Int := (digitsToNat ds : Nat)
      if neg then
        if n ≤ 2 ^ 63 then some (-n) else none
      else
        if n ≤ 2 ^ 63 - 1 then some n else none
    else none

/-- Go `strconv.Atoi` = ParseInt base 10 into the platform int (64-bit). -/
def atoi (s : String) : Option Int :=
  parseInt64 s

/-- configHandler from either variant: each of the three optional query
parameters, when present (non-empty) and parsing, replaces the
corresponding field; everything else is untouched.  A missing query
parameter reads as the empty string in Go, so absence is modelled as "". -/
def configHandler (cfg : Config) (nStr wStr rStr : String) : Config :=
  let c1 := if nStr ≠ "" then
      (match atoi nStr with
       | some i => { cfg with N := i }
       | none => cfg)
    else cfg
  let c2 := if wStr ≠ "" then
      (match atoi wStr with
       | some i => { c1 with W := i }
       | none => c1)
    else c1
  if rStr ≠ "" then
    (match atoi rStr with
     | some i => { c2 with R := i }
     | none => c2)
  else c2

/-- Number of `true` acknowledgments in a list of peer RPC outcomes. -/
def countTrue : List Bool → Nat
  | [] => 0
  | b :: rest => (if b then 1 else 0) + countTrue rest

/-- Outcome of a write request, abstracting the HTTP status codes:
badRequest = 400 missing key, notCoordinator = 400 writes-only-on-leader,
quorumNotMet = 500, accepted = 200/201. -/
inductive WriteOutcome where
  | badRequest
  | notCoordinator
  | quorumNotMet
  | accepted
deriving DecidableEq, Repr

/-- The sequential fan-out loop of setHandler's leader branch (W > 1):
peers are contacted in list order, `acks` is incremented on a true reply,
and the loop breaks as soon as `acks >= W`.  `replies` holds what each
peer would answer if contacted.  Returns the final tally and how many
peers were actually contacted. -/
def seqFanout (W : Int) (acks : Nat) : List Bool → Nat × Nat
  | [] => (acks, 0)
  | r :: rs =>
      let a := if r then acks + 1 else acks
      if (a : Int) ≥ W then (a, 1)
      else
        let p := seqFanout W a rs
        (p.1, p.2 + 1)

/-- putHandler from `main.go`: only the leader coordinates; local write is
an unconditional map assignment; W = 1 is fire-and-forget; W ≠ 1 waits
for every peer (concurrent fan-out joined by a WaitGroup) and tallies. -/
def putHandler (cfg : Config) (key val : String) (ts : Int)
    (replies : List Bool) (s : Store) : WriteOutcome × Store :=
  if key = "" then (.badRequest, s)
  else if cfg.role = .Leader then
    let s1 := s.insert key ⟨val, ts⟩
    if cfg.W = 1 then (.accepted, s1)
    else if ((1 + countTrue replies : Nat) : Int) < cfg.W then (.quorumNotMet, s1)
    else (.accepted, s1)
  else (.notCoordinator, s)

/-- setHandler from the second variant: the leader coordinates, or a
non-leader when W = N (leaderless unanimous mode).  Local write is an
unconditional map assignment.  Leader with W = 1 is fire-and-forget;
leader with W ≠ 1 runs the sequential early-break fan-out; the leaderless
branch contacts every peer with no break. -/
def setHandler (cfg : Config) (key val : String) (ts : Int)
    (replies : List Bool) (s : Store) : WriteOutcome × Store :=
  if key = "" then (.badRequest, s)
  else if cfg.role = .Leader then
    let s1 := s.insert key ⟨val, ts⟩
    if cfg.W = 1 then (.accepted, s1)
    else
      let acks := (seqFanout cfg.W 1 replies).1
      if (acks : Int) < cfg.W then (.quorumNotMet, s1)
      else (.accepted, s1)
  else if cfg.W = cfg.N then
    let s1 := s.insert key ⟨val, ts⟩
    let acks := 1 + countTrue replies
    if ((acks : Nat) : Int) < cfg.W then (.quorumNotMet, s1)
    else (.accepted, s1)
  else (.notCoordinator, s)

/-- Outcome of an inbound replicate RPC. -/
inductive RepOutcome where
  | invalid
  | ok
deriving DecidableEq, Repr

/-- replicateHandler from either variant: parse the timestamp, reject when
the key is empty or the parse failed, otherwise apply-if-newer and answer
200 regardless of whether the entry was replaced. -/
def replicateHandler (key val tsStr : String) (s : Store) : RepOutcome × Store :=
  match parseInt64 tsStr with
  | none => (.invalid, s)
  | some ts =>
      if key = "" then (.invalid, s)
      else (.ok, (applyIfNewer s key ⟨val, ts⟩).1)

/-- One response arriving on the read coordinator's channel: ok = false is
a transport error or non-200 reply (carrying the zero Entry), ok = true
carries the decoded entry. -/
structure ReadResult where
  ok : Bool
  e : Entry
deriving DecidableEq, Repr

/-- Outcome of a read request. -/
inductive ReadOutcome where
  | badRequest
  | notFound
  | found : Entry → ReadOutcome
deriving DecidableEq, Repr

/-- The collection loop of getHandler's R > 1 path: consume channel
results in arrival order, skip non-ok ones, keep the entry whose
timestamp strictly exceeds the best so far (best starts as the zero
Entry), and break once `got >= R` successes were seen.  Returns the
number of successes counted and the best entry. -/
def collectLoop (R : Int) : List ReadResult → Nat → Entry → Nat × Entry
  | [], got, best => (got, best)
  | r :: rs, got, best =>
      if r.ok then
        let got1 := got + 1
        let best1 := if r.e.Timestamp > best.Timestamp then r.e else best
        if (got1 : Int) ≥ R then (got1, best1)
        else collectLoop R rs got1 best1
      else collectLoop R rs got best

/-- getHandler from either variant: empty key is rejected; R = 1 answers
from the local store alone; otherwise the coordinator fans out (local
plus one task per peer) and `arrivals` is the channel's arrival order of
all those results.  Fewer than one success is NotFound, otherwise the
best entry of the collection loop is returned. -/
def getHandler (cfg : Config) (key : String) (s : Store)
    (arrivals : List ReadResult) : ReadOutcome :=
  if key = "" then .badRequest
  else if cfg.R = 1 then
    match s.lookup key with
    | none => .notFound
    | some e => .found e
  else
    let p := collectLoop cfg.R arrivals 0 ⟨"", 0⟩
    if p.1 < 1 then .notFound else .found p.2

/-- JSON values as encoding/json produces and consumes them for `Entry`
(the textual serialisation with its escaping is the transport adapter;
the spec treats JSON encoding of the wire entity as external). -/
inductive Json where
  | str : String → Json
  | num : Int → Json
  | obj : List (String × Json) → Json

def jsonField : List (String × Json) → String → Option Json
  | [], _ => none
  | (k1, v) :: rest, k => if k1 = k then some v else jsonField rest k

/-- json.Marshal of an Entry under its struct tags:
an object with a "value" string and a "timestamp" number. -/
def entryToJson (e : Entry) : Json :=
  .obj [("value", .str e.Value), ("timestamp", .num e.Timestamp)]

/-- json.Unmarshal into an Entry: both tagged fields must be present with
the right shapes (Go tolerates absence, which the round trip never
produces, so the strict reading only narrows success). -/
def entryFromJson (j : Json) : Option Entry :=
  match j with
  | .obj fields =>
      match jsonField fields "value", jsonField fields "timestamp" with
      | some (.str v), some (.num t) => some ⟨v, t⟩
      | _, _ => none
  | _ => none

/-- A sequence of replication acceptances at one replica: each candidate
in turn goes through applyIfNewer, as replicateHandler does. -/
def applyAll (s : Store) (k : String) (cs : List Entry) : Store :=
  cs.foldl (fun st c => (applyIfNewer st k c).1) s

/-- Timestamp of an optional entry. -/
def tsOf : Option Entry → Option Int :=
  Option.map Entry.Timestamp

/-- Running maximum of timestamps, absence treated as minus infinity. -/
def maxTs (o : Option Int) (t : Int) : Option Int :=
  some (match o with
        | none => t
        | some u => max u t)

/-- The successful responses of an arrival sequence, in arrival order. -/
def successesOf (l : List ReadResult) : List Entry :=
  (l.filter (fun r => r.ok)).map (fun r => r.e)

/-- The entry the collection loop keeps: fold the strict-greater
comparison over a list of entries starting from an initial candidate. -/
def bestOf (init : Entry) (es : List Entry) : Entry :=
  es.foldl (fun b e => if e.Timestamp > b.Timestamp then e else b) init

/-- The acknowledgment tally of putHandler's write path: with W = 1 the
handler returns after the local apply (one acknowledgment, no peer reply
awaited); otherwise one for the local apply plus every successful peer
reply. -/
def putAcks (cfg : Config) (replies : List Bool) : Nat :=
  if cfg.W = 1 then 1 else 1 + countTrue replies

/-- The acknowledgment tally of setHandler's leader path: with W = 1 just
the local apply; otherwise the tally of the sequential early-break
fan-out (which starts from the local acknowledgment 1). -/
def setLeaderAcks (cfg : Config) (replies : List Bool) : Nat :=
  if cfg.W = 1 then 1 else (seqFanout cfg.W 1 replies).1

theorem listFind_listPut_self (l : List (String × Entry)) (k : String) (e : Entry) :
    listFind (listPut l k e) k = some e := by
  induction l with
  | nil => simp [listPut, listFind]
  | cons p rest ih =>
      obtain ⟨k1, e1⟩ := p
      by_cases h : k1 = k
      · simp [listPut, listFind, h]
      · simp [listPut, listFind, h, ih]

theorem listPut_listPut_self (l : List (String × Entry)) (k : String) (e1 e2 : Entry) :
    listPut (listPut l k e1) k e2 = listPut l k e2 := by
  induction l with
  | nil => simp [listPut]
  | cons p rest ih =>
      obtain ⟨k1, e0⟩ := p
      by_cases h : k1 = k
      · simp [listPut, h]
      · simp [listPut, h, ih]

theorem lookup_insert_self (s : Store) (k : String) (e : Entry) :
    (s.insert k e).lookup k = some e :=
  listFind_listPut_self s.data k e

theorem insert_insert_self (s : Store) (k : String) (e1 e2 : Entry) :
    (s.insert k e1).insert k e2 = s.insert k e2 :=
  congrArg Store.mk (listPut_listPut_self s.data k e1 e2)

theorem applyIfNewer_fst_none (s : Store) (k : String) (c : Entry)
    (h : s.lookup k = none) : (applyIfNewer s k c).1 = s.insert k c := by
  unfold applyIfNewer
  rw [h]

theorem applyIfNewer_fst_apply (s : Store) (k : String) (c e : Entry)
    (h : s.lookup k = some e) (hgt : c.Timestamp > e.Timestamp) :
    (applyIfNewer s k c).1 = s.insert k c := by
  unfold applyIfNewer
  rw [h]
  simp [hgt]

theorem applyIfNewer_fst_skip (s : Store) (k : String) (c e : Entry)
    (h : s.lookup k = some e) (hng : ¬ c.Timestamp > e.Timestamp) :
    (applyIfNewer s k c).1 = s := by
  unfold applyIfNewer
  rw [h]
  simp [hng]

theorem applyIfNewer_ts (s : Store) (k : String) (c : Entry) :
    tsOf (((applyIfNewer s k c).1).lookup k) = maxTs (tsOf (s.lookup k)) c.Timestamp := by
  unfold applyIfNewer
  cases h : s.lookup k with
  | none => simp [tsOf, maxTs, lookup_insert_self]
  | some e =>
      by_cases hts : c.Timestamp > e.Timestamp
      · simp [hts, tsOf, maxTs, lookup_insert_self, max_eq_right (le_of_lt hts)]
      · simp [hts, tsOf, maxTs, h, max_eq_left (not_lt.mp hts)]

/-- C9: encoding an Entry to the JSON wire object and decoding it back
yields an Entry with the identical value and timestamp. -/
theorem entry_json_roundtrip (e : Entry) :
    entryFromJson (entryToJson e) = some e := rfl

/-- C7: receiveReplicate rejects exactly when the key is empty or the
timestamp fails to parse as an int64; every validated request applies
applyIfNewer to the local store and returns success, whether or not the
entry was replaced. -/
theorem replicateHandler_validation (key val tsStr : String) (s : Store) :
    ((replicateHandler key val tsStr s).1 = .invalid ↔
        (key = "" ∨ parseInt64 tsStr = none))
    ∧ (∀ ts : Int, parseInt64 tsStr = some ts → key ≠ "" →
        replicateHandler key val tsStr s = (.ok, (applyIfNewer s key ⟨val, ts⟩).1)) := by
  unfold replicateHandler
  cases h : parseInt64 tsStr with
  | none => simp [h]
  | some ts0 => by_cases hk : key = "" <;> simp [hk, h]

theorem replicateHandler_validation_witness :
    parseInt64 "7" = some 7 ∧ ("k" : String) ≠ "" ∧
    replicateHandler "k" "v" "7" ⟨[]⟩ = (.ok, (applyIfNewer ⟨[]⟩ "k" ⟨"v", (7 : Int)⟩).1) :=
  ⟨by decide, by decide,
    (replicateHandler_validation "k" "v" "7" ⟨[]⟩).2 7 (by decide) (by decide)⟩

/-- C8: reconfiguration replaces exactly the fields whose parameter is
supplied (non-empty) with a valid numeric value; parameters absent or
invalid retain the previous value; role and peers are untouched; the
operation is total. -/
theorem configHandler_frame (cfg : Config) (nStr wStr rStr : String) :
    (configHandler cfg nStr wStr rStr).role = cfg.role
    ∧ (configHandler cfg nStr wStr rStr).peers = cfg.peers
    ∧ (configHandler cfg nStr wStr rStr).N =
        (match atoi nStr with
         | some i => if nStr = "" then cfg.N else i
         | none => cfg.N)
    ∧ (configHandler cfg nStr wStr rStr).W =
        (match atoi wStr with
         | some i => if wStr = "" then cfg.W else i
         | none => cfg.W)
    ∧ (configHandler cfg nStr wStr rStr).R =
        (match atoi rStr with
         | some i => if rStr = "" then cfg.R else i
         | none => cfg.R) := by
  unfold configHandler
  by_cases hn : nStr = "" <;> by_cases hw : wStr = "" <;> by_cases hr : rStr = "" <;>
    cases hN : atoi nStr <;> cases hW : atoi wStr <;> cases hR : atoi rStr <;>
      simp [hn, hw, hr, hN, hW, hR]

/-- C6 counterexample: with a prior entry of timestamp 10 already stored
for k, replication-applying e1 (ts 1) and e2 (ts 2) in either order
leaves the stored timestamp 10, not t2 = 2, so the claim as stated
(final stored timestamp is t2 whenever t2 > t1) fails. -/
theorem lww_prior_newer_counterexample :
    (applyAll ⟨[("k", ⟨"old", 10⟩)]⟩ "k" [⟨"a", 1⟩, ⟨"b", 2⟩]).lookup "k" = some ⟨"old", 10⟩
    ∧ (applyAll ⟨[("k", ⟨"old", 10⟩)]⟩ "k" [⟨"b", 2⟩, ⟨"a", 1⟩]).lookup "k" = some ⟨"old", 10⟩
    ∧ (1 : Int) < 2 ∧ (Entry.mk "old" 10).Timestamp ≠ 2 := by decide

/-- C6 amended: for t1 < t2, replication-applying e1 and e2 to the same
store in either order yields the same final store, and whenever the
store's prior entry for k (if any) has timestamp below t2, the final
stored entry for k is e2 (timestamp t2). -/
theorem lww_order_independent (s : Store) (k : String) (e1 e2 : Entry)
    (h : e1.Timestamp < e2.Timestamp) :
    applyAll s k [e1, e2] = applyAll s k [e2, e1]
    ∧ ((∀ e0, s.lookup k = some e0 → e0.Timestamp < e2.Timestamp) →
        (applyAll s k [e1, e2]).lookup k = some e2) := by
  have e12 : applyAll s k [e1, e2] = (applyIfNewer (applyIfNewer s k e1).1 k e2).1 := rfl
  have e21 : applyAll s k [e2, e1] = (applyIfNewer (applyIfNewer s k e2).1 k e1).1 := rfl
  rw [e12, e21]
  cases h0 : s.lookup k with
  | none =>
      rw [applyIfNewer_fst_none s k e1 h0, applyIfNewer_fst_none s k e2 h0,
        applyIfNewer_fst_apply _ k e2 e1 (lookup_insert_self s k e1) (by omega),
        applyIfNewer_fst_skip _ k e1 e2 (lookup_insert_self s k e2) (by omega),
        insert_insert_self]
      exact ⟨rfl, fun _ => lookup_insert_self s k e2⟩
  | some e0 =>
      by_cases h2 : e2.Timestamp > e0.Timestamp
      · by_cases h1 : e1.Timestamp > e0.Timestamp
        · rw [applyIfNewer_fst_apply s k e1 e0 h0 h1, applyIfNewer_fst_apply s k e2 e0 h0 h2,
            applyIfNewer_fst_apply _ k e2 e1 (lookup_insert_self s k e1) (by omega),
            applyIfNewer_fst_skip _ k e1 e2 (lookup_insert_self s k e2) (by omega),
            insert_insert_self]
          exact ⟨rfl, fun _ => lookup_insert_self s k e2⟩
        · rw [applyIfNewer_fst_skip s k e1 e0 h0 h1, applyIfNewer_fst_apply s k e2 e0 h0 h2,
            applyIfNewer_fst_skip _ k e1 e2 (lookup_insert_self s k e2) (by omega)]
          exact ⟨rfl, fun _ => lookup_insert_self s k e2⟩
      · have h1 : ¬ e1.Timestamp > e0.Timestamp := by omega
        rw [applyIfNewer_fst_skip s k e1 e0 h0 h1, applyIfNewer_fst_skip s k e2 e0 h0 h2,
          applyIfNewer_fst_skip s k e1 e0 h0 h1]
        exact ⟨rfl, fun hall => absurd (hall e0 rfl) (by omega)⟩

theorem lww_order_independent_witness :
    ((1 : Int) < 2)
    ∧ applyAll ⟨[]⟩ "k" [⟨"a", 1⟩, ⟨"b", 2⟩] = applyAll ⟨[]⟩ "k" [⟨"b", 2⟩, ⟨"a", 1⟩]
    ∧ (applyAll ⟨[]⟩ "k" [⟨"a", 1⟩, ⟨"b", 2⟩]).lookup "k" = some ⟨"b", 2⟩ :=
  have h := lww_order_independent ⟨[]⟩ "k" ⟨"a", 1⟩ ⟨"b", 2⟩ (by decide)
  ⟨by decide, h.1, h.2 (by intro e0 hc; simp [Store.lookup, listFind] at hc)⟩

/-- C1 counterexample: the coordinator's own local write does not go
through applyIfNewer: with ⟨"old", 5⟩ stored, a local write of
timestamp 3 overwrites it in both variants, leaving stored timestamp 3,
strictly below the maximum ever applied (5); applyIfNewer on the same
input would have kept ⟨"old", 5⟩. -/
theorem localWrite_bypasses_applyIfNewer :
    (setHandler ⟨.Leader, [], 1, 1, 1⟩ "k" "v" 3 [] ⟨[("k", ⟨"old", 5⟩)]⟩).2.lookup "k"
      = some ⟨"v", 3⟩
    ∧ (putHandler ⟨.Leader, [], 1, 1, 1⟩ "k" "v" 3 [] ⟨[("k", ⟨"old", 5⟩)]⟩).2.lookup "k"
      = some ⟨"v", 3⟩
    ∧ (applyIfNewer ⟨[("k", ⟨"old", 5⟩)]⟩ "k" ⟨"v", 3⟩).1.lookup "k" = some ⟨"old", 5⟩
    ∧ (3 : Int) < 5 := by decide

/-- C1 amended: replication acceptances go through applyIfNewer with a
strict comparison, so after any sequence of them the stored timestamp is
the running maximum of the initial timestamp and all applied candidates,
and a candidate whose timestamp does not exceed the stored one leaves
the store unchanged (ties keep the present entry); the coordinator's own
local write, by contrast, overwrites unconditionally in both variants. -/
theorem store_timestamp_invariant_amended (s : Store) (k : String) (cs : List Entry) :
    tsOf ((applyAll s k cs).lookup k)
      = cs.foldl (fun o c => maxTs o c.Timestamp) (tsOf (s.lookup k))
    ∧ (∀ c e, s.lookup k = some e → c.Timestamp ≤ e.Timestamp → (applyIfNewer s k c).1 = s)
    ∧ (∀ (cfg : Config) (val : String) (ts : Int) (replies : List Bool),
        k ≠ "" → cfg.role = .Leader →
        (setHandler cfg k val ts replies s).2.lookup k = some ⟨val, ts⟩
        ∧ (putHandler cfg k val ts replies s).2.lookup k = some ⟨val, ts⟩) := by
  refine ⟨?_, ?_, ?_⟩
  · induction cs generalizing s with
    | nil => simp [applyAll]
    | cons c rest ih =>
        have step : applyAll s k (c :: rest) = applyAll (applyIfNewer s k c).1 k rest := rfl
        rw [step, ih, applyIfNewer_ts]
        rfl
  · intro c e he hle
    exact applyIfNewer_fst_skip s k c e he (by omega)
  · intro cfg val ts replies hk hrole
    constructor
    · simp only [setHandler, hk, hrole]
      split_ifs <;> simp_all [lookup_insert_self]
    · simp only [putHandler, hk, hrole]
      split_ifs <;> simp_all [lookup_insert_self]

theorem store_timestamp_invariant_amended_witness :
    tsOf ((applyAll ⟨[]⟩ "k" [⟨"a", 4⟩, ⟨"b", 2⟩]).lookup "k")
      = [(⟨"a", 4⟩ : Entry), ⟨"b", 2⟩].foldl (fun o c => maxTs o c.Timestamp)
          (tsOf ((⟨[]⟩ : Store).lookup "k"))
    ∧ (("k" : String) ≠ "")
    ∧ (setHandler ⟨.Leader, [], 1, 1, 1⟩ "k" "v" 9 [] ⟨[]⟩).2.lookup "k" = some ⟨"v", 9⟩ :=
  have h := store_timestamp_invariant_amended ⟨[]⟩ "k" [⟨"a", 4⟩, ⟨"b", 2⟩]
  ⟨h.1, by decide, (h.2.2 ⟨.Leader, [], 1, 1, 1⟩ "v" 9 [] (by decide) rfl).1⟩

theorem putHandler_notCoord (cfg : Config) (key val : String) (ts : Int)
    (replies : List Bool) (s : Store) (hk : key ≠ "") (hr : ¬ cfg.role = .Leader) :
    putHandler cfg key val ts replies s = (.notCoordinator, s) := by
  simp [putHandler, hk, hr]

theorem putHandler_leader_w1 (cfg : Config) (key val : String) (ts : Int)
    (replies : List Bool) (s : Store) (hk : key ≠ "") (hr : cfg.role = .Leader)
    (hW : cfg.W = 1) :
    putHandler cfg key val ts replies s = (.accepted, s.insert key ⟨val, ts⟩) := by
  simp [putHandler, hk, hr, hW]

theorem putHandler_leader_sync (cfg : Config) (key val : String) (ts : Int)
    (replies : List Bool) (s : Store) (hk : key ≠ "") (hr : cfg.role = .Leader)
    (hW : ¬ cfg.W = 1) :
    putHandler cfg key val ts replies s =
      (if ((1 + countTrue replies : Nat) : Int) < cfg.W then .quorumNotMet else .accepted,
       s.insert key ⟨val, ts⟩) := by
  simp only [putHandler, hk, hr, hW]
  split_ifs <;> simp_all

theorem setHandler_notCoord (cfg : Config) (key val : String) (ts : Int)
    (replies : List Bool) (s : Store) (hk : key ≠ "") (hr : ¬ cfg.role = .Leader)
    (hWN : ¬ cfg.W = cfg.N) :
    setHandler cfg key val ts replies s = (.notCoordinator, s) := by
  simp [setHandler, hk, hr, hWN]

theorem setHandler_leader_w1 (cfg : Config) (key val : String) (ts : Int)
    (replies : List Bool) (s : Store) (hk : key ≠ "") (hr : cfg.role = .Leader)
    (hW : cfg.W = 1) :
    setHandler cfg key val ts replies s = (.accepted, s.insert key ⟨val, ts⟩) := by
  simp [setHandler, hk, hr, hW]

theorem setHandler_leader_sync (cfg : Config) (key val : String) (ts : Int)
    (replies : List Bool) (s : Store) (hk : key ≠ "") (hr : cfg.role = .Leader)
    (hW : ¬ cfg.W = 1) :
    setHandler cfg key val ts replies s =
      (if (((seqFanout cfg.W 1 replies).1 : Nat) : Int) < cfg.W then .quorumNotMet
       else .accepted,
       s.insert key ⟨val, ts⟩) := by
  simp only [setHandler, hk, hr, hW]
  split_ifs <;> simp_all

theorem setHandler_leaderless (cfg : Config) (key val : String) (ts : Int)
    (replies : List Bool) (s : Store) (hk : key ≠ "") (hr : ¬ cfg.role = .Leader)
    (hWN : cfg.W = cfg.N) :
    setHandler cfg key val ts replies s =
      (if ((1 + countTrue replies : Nat) : Int) < cfg.W then .quorumNotMet else .accepted,
       s.insert key ⟨val, ts⟩) := by
  simp only [setHandler, hk, hr, hWN]
  split_ifs <;> simp_all

/-- C2 counterexample: in main.go's putHandler a Peer node with W = N
(here W = N = 2, non-empty key) is rejected as NotCoordinator instead of
proceeding, so the claimed coordination condition fails for that write
path. -/
theorem putHandler_rejects_leaderless_coordinator :
    putHandler ⟨.Peer, ["p1"], 2, 1, 2⟩ "k" "v" 7 [true] ⟨[]⟩ = (.notCoordinator, ⟨[]⟩)
    ∧ (Config.mk .Peer ["p1"] 2 1 2).W = (Config.mk .Peer ["p1"] 2 1 2).N
    ∧ (Config.mk .Peer ["p1"] 2 1 2).role = .Peer := by decide

/-- C2 amended: for setHandler the write (non-empty key) proceeds to the
local apply exactly when the node is Leader or W = N, and otherwise is
rejected as NotCoordinator with the store unchanged; for main.go's
putHandler the write proceeds exactly when the node is Leader — a Peer
with W = N is also rejected there, as NotCoordinator with the store
unchanged. -/
theorem coordinator_characterization (cfg : Config) (key val : String) (ts : Int)
    (replies : List Bool) (s : Store) (hk : key ≠ "") :
    ((setHandler cfg key val ts replies s).1 = .notCoordinator
        ↔ ¬(cfg.role = .Leader ∨ cfg.W = cfg.N))
    ∧ ((setHandler cfg key val ts replies s).1 = .notCoordinator →
        (setHandler cfg key val ts replies s).2 = s)
    ∧ ((setHandler cfg key val ts replies s).1 ≠ .notCoordinator →
        (setHandler cfg key val ts replies s).2 = s.insert key ⟨val, ts⟩)
    ∧ ((putHandler cfg key val ts replies s).1 = .notCoordinator ↔ ¬ cfg.role = .Leader)
    ∧ ((putHandler cfg key val ts replies s).1 = .notCoordinator →
        (putHandler cfg key val ts replies s).2 = s)
    ∧ ((putHandler cfg key val ts replies s).1 ≠ .notCoordinator →
        (putHandler cfg key val ts replies s).2 = s.insert key ⟨val, ts⟩) := by
  by_cases hr : cfg.role = .Leader
  · by_cases hW : cfg.W = 1
    · rw [setHandler_leader_w1 cfg key val ts replies s hk hr hW,
        putHandler_leader_w1 cfg key val ts replies s hk hr hW]
      simp [hr]
    · rw [setHandler_leader_sync cfg key val ts replies s hk hr hW,
        putHandler_leader_sync cfg key val ts replies s hk hr hW]
      constructor
      · split_ifs <;> simp [hr]
      constructor
      · split_ifs <;> simp
      constructor
      · split_ifs <;> simp
      constructor
      · split_ifs <;> simp [hr]
      constructor
      · split_ifs <;> simp
      · split_ifs <;> simp
  · by_cases hWN : cfg.W = cfg.N
    · rw [setHandler_leaderless cfg key val ts replies s hk hr hWN,
        putHandler_notCoord cfg key val ts replies s hk hr]
      refine ⟨?_, ?_, ?_, ?_, ?_, ?_⟩ <;>
        first
          | (split_ifs <;> simp [hr, hWN])
          | simp [hr, hWN]
    · rw [setHandler_notCoord cfg key val ts replies s hk hr hWN,
        putHandler_notCoord cfg key val ts replies s hk hr]
      simp [hr, hWN]

theorem coordinator_characterization_witness :
    (("k" : String) ≠ "")
    ∧ ((setHandler ⟨.Peer, ["p"], 3, 1, 2⟩ "k" "v" 7 [] ⟨[]⟩).1 = .notCoordinator
        ↔ ¬((Config.mk .Peer ["p"] 3 1 2).role = .Leader
            ∨ (Config.mk .Peer ["p"] 3 1 2).W = (Config.mk .Peer ["p"] 3 1 2).N))
    ∧ (setHandler ⟨.Peer, ["p"], 3, 1, 2⟩ "k" "v" 7 [] ⟨[]⟩).2 = ⟨[]⟩ :=
  have h := coordinator_characterization ⟨.Peer, ["p"], 3, 1, 2⟩ "k" "v" 7 [] ⟨[]⟩ (by decide)
  ⟨by decide, h.1, h.2.1 (by decide)⟩

/-- C3: for every coordinated write path, the outcome is QuorumNotMet
exactly when the acknowledgment tally (the local apply as one, plus the
successful peer replies the coordinator collected) is strictly below the
current W, and otherwise Accepted: putHandler and setHandler leader
paths use their respective tallies, the leaderless path tallies one plus
every successful peer reply. -/
theorem write_quorum_iff (cfg : Config) (key val : String) (ts : Int)
    (replies : List Bool) (s : Store) (hk : key ≠ "") :
    (cfg.role = .Leader →
      (((putHandler cfg key val ts replies s).1 = .quorumNotMet
          ↔ ((putAcks cfg replies : Nat) : Int) < cfg.W)
        ∧ ((putHandler cfg key val ts replies s).1 = .quorumNotMet
            ∨ (putHandler cfg key val ts replies s).1 = .accepted)
        ∧ ((setHandler cfg key val ts replies s).1 = .quorumNotMet
          ↔ ((setLeaderAcks cfg replies : Nat) : Int) < cfg.W)
        ∧ ((setHandler cfg key val ts replies s).1 = .quorumNotMet
            ∨ (setHandler cfg key val ts replies s).1 = .accepted)))
    ∧ (¬ cfg.role = .Leader → cfg.W = cfg.N →
      (((setHandler cfg key val ts replies s).1 = .quorumNotMet
          ↔ ((1 + countTrue replies : Nat) : Int) < cfg.W)
        ∧ ((setHandler cfg key val ts replies s).1 = .quorumNotMet
            ∨ (setHandler cfg key val ts replies s).1 = .accepted))) := by
  constructor
  · intro hr
    by_cases hW : cfg.W = 1
    · rw [putHandler_leader_w1 cfg key val ts replies s hk hr hW,
        setHandler_leader_w1 cfg key val ts replies s hk hr hW]
      simp [putAcks, setLeaderAcks, hW]
    · rw [putHandler_leader_sync cfg key val ts replies s hk hr hW,
        setHandler_leader_sync cfg key val ts replies s hk hr hW]
      simp only [putAcks, setLeaderAcks, if_neg hW]
      refine ⟨?_, ?_, ?_, ?_⟩ <;> split_ifs <;> simp_all
  · intro hr hWN
    rw [setHandler_leaderless cfg key val ts replies s hk hr hWN]
    constructor <;> split_ifs <;> simp_all

theorem write_quorum_iff_witness :
    (("k" : String) ≠ "") ∧ (Config.mk .Leader ["p1"] 2 1 2).role = .Leader
    ∧ ((putHandler ⟨.Leader, ["p1"], 2, 1, 2⟩ "k" "v" 7 [false] ⟨[]⟩).1 = .quorumNotMet
        ↔ ((putAcks ⟨.Leader, ["p1"], 2, 1, 2⟩ [false] : Nat) : Int)
            < (Config.mk .Leader ["p1"] 2 1 2).W) :=
  have h := write_quorum_iff ⟨.Leader, ["p1"], 2, 1, 2⟩ "k" "v" 7 [false] ⟨[]⟩ (by decide)
  ⟨by decide, rfl, (h.1 rfl).1⟩

theorem seqFanout_spec (W : Int) (replies : List Bool) : ∀ acks : Nat, (acks : Int) < W →
    (seqFanout W acks replies).2 ≤ replies.length
    ∧ (seqFanout W acks replies).1
        = acks + countTrue (replies.take (seqFanout W acks replies).2)
    ∧ ((seqFanout W acks replies).2 < replies.length →
        ((seqFanout W acks replies).1 : Int) = W) := by
  induction replies with
  | nil =>
      intro acks h
      simp [seqFanout, countTrue]
  | cons r rs ih =>
      intro acks h
      simp only [seqFanout]
      by_cases hstop : (((if r then acks + 1 else acks : Nat) : Nat) : Int) ≥ W
      · rw [if_pos hstop]
        refine ⟨by simp, ?_, ?_⟩
        · cases r <;> simp [countTrue]
        · intro _
          cases r <;> simp_all <;> omega
      · rw [if_neg hstop]
        have h2 : (((if r then acks + 1 else acks : Nat) : Nat) : Int) < W := by omega
        obtain ⟨ih1, ih2, ih3⟩ := ih _ h2
        refine ⟨by simpa using ih1, ?_, ?_⟩
        · cases r <;> simp_all [countTrue, List.take] <;> omega
        · intro hlt
          apply ih3
          simp only [List.length_cons] at hlt
          omega

/-- C4 counterexample: setHandler's leader branch with W = 2 and two
peers that would both acknowledge contacts only the first peer (the
fan-out loop breaks once the tally reaches W), so the second peer is
skipped, contradicting the claim that every peer in the list receives a
replicate RPC. -/
theorem setHandler_skips_peer_after_quorum :
    (seqFanout 2 1 [true, true]).2 = 1
    ∧ ([true, true] : List Bool).length = 2
    ∧ (setHandler ⟨.Leader, ["p1", "p2"], 3, 1, 2⟩ "k" "v" 7 [true, true] ⟨[]⟩).1
        = .accepted := by decide

/-- C4 amended: in main.go's putHandler (and in setHandler's leaderless
branch) every peer is sent a replicate RPC and all replies are awaited,
the tally being one plus the successful replies over the whole peer
list; in setHandler's leader branch with W > 1 peers are contacted
sequentially in list order and the loop stops as soon as the tally
reaches W, so peers after that point are skipped: the number contacted
is at most the peer count, the tally is one plus the successful replies
among the contacted prefix, and whenever a peer was skipped the tally
stopped at exactly W. -/
theorem write_fanout_characterization (W : Int) (replies : List Bool) (hW : 1 < W) :
    (seqFanout W 1 replies).2 ≤ replies.length
    ∧ (seqFanout W 1 replies).1 = 1 + countTrue (replies.take (seqFanout W 1 replies).2)
    ∧ ((seqFanout W 1 replies).2 < replies.length → ((seqFanout W 1 replies).1 : Int) = W)
    ∧ (∀ (cfg : Config) (key val : String) (ts : Int) (s : Store),
        key ≠ "" → cfg.role = .Leader → cfg.W = W →
        (putHandler cfg key val ts replies s).1
          = (if ((1 + countTrue replies : Nat) : Int) < W then .quorumNotMet
             else .accepted))
    ∧ (∀ (cfg : Config) (key val : String) (ts : Int) (s : Store),
        key ≠ "" → ¬ cfg.role = .Leader → cfg.W = cfg.N → cfg.W = W →
        (setHandler cfg key val ts replies s).1
          = (if ((1 + countTrue replies : Nat) : Int) < W then .quorumNotMet
             else .accepted)) := by
  obtain ⟨h1, h2, h3⟩ := seqFanout_spec W replies 1 (by omega)
  refine ⟨h1, h2, h3, ?_, ?_⟩
  · intro cfg key val ts s hk hr hWeq
    subst hWeq
    rw [putHandler_leader_sync cfg key val ts replies s hk hr (by omega)]
  · intro cfg key val ts s hk hr hWN hWeq
    subst hWeq
    rw [setHandler_leaderless cfg key val ts replies s hk hr hWN]

theorem write_fanout_characterization_witness :
    ((1 : Int) < 2)
    ∧ (seqFanout 2 1 [false, true, true]).2 ≤ ([false, true, true] : List Bool).length
    ∧ (seqFanout 2 1 [false, true, true]).1
        = 1 + countTrue (([false, true, true] : List Bool).take
            (seqFanout 2 1 [false, true, true]).2)
    ∧ ((seqFanout 2 1 [false, true, true]).2 < ([false, true, true] : List Bool).length →
        ((seqFanout 2 1 [false, true, true]).1 : Int) = 2) :=
  have h := write_fanout_characterization 2 [false, true, true] (by decide)
  ⟨by decide, h.1, h.2.1, h.2.2.1⟩

theorem successesOf_cons_ok (r : ReadResult) (rs : List ReadResult) (h : r.ok = true) :
    successesOf (r :: rs) = r.e :: successesOf rs := by
  simp [successesOf, List.filter_cons, h]

theorem successesOf_cons_fail (r : ReadResult) (rs : List ReadResult) (h : r.ok = false) :
    successesOf (r :: rs) = successesOf rs := by
  simp [successesOf, List.filter_cons, h]

theorem collect_spec (R : Int) (l : List ReadResult) : ∀ (got : Nat) (best : Entry),
    (got : Int) < R →
    collectLoop R l got best
      = (got + min (R.toNat - got) (successesOf l).length,
         bestOf best ((successesOf l).take (R.toNat - got))) := by
  induction l with
  | nil =>
      intro got best h
      simp [collectLoop, successesOf, bestOf]
  | cons r rs ih =>
      intro got best h
      by_cases hok : r.ok
      · rw [successesOf_cons_ok r rs hok]
        by_cases hge : ((got + 1 : Nat) : Int) ≥ R
        · have hR1 : R.toNat - got = 1 := by omega
          have hcl : collectLoop R (r :: rs) got best
              = (got + 1, if r.e.Timestamp > best.Timestamp then r.e else best) := by
            simp only [collectLoop, hok, if_true]
            rw [if_pos hge]
          rw [hcl, hR1]
          have hmin : min 1 (r.e :: successesOf rs).length = 1 := by
            simp [List.length_cons]
          rw [hmin]
          have htake : (r.e :: successesOf rs).take 1 = [r.e] := rfl
          rw [htake]
          rfl
        · have hlt2 : ((got + 1 : Nat) : Int) < R := by omega
          have hcl : collectLoop R (r :: rs) got best
              = collectLoop R rs (got + 1)
                  (if r.e.Timestamp > best.Timestamp then r.e else best) := by
            simp only [collectLoop, hok, if_true]
            rw [if_neg hge]
          rw [hcl, ih (got + 1) _ hlt2]
          obtain ⟨m, hm⟩ : ∃ m, R.toNat - got = m + 1 := ⟨R.toNat - got - 1, by omega⟩
          have hm2 : R.toNat - (got + 1) = m := by omega
          rw [hm2, hm, List.take_succ_cons, List.length_cons]
          refine congrArg₂ Prod.mk ?_ rfl
          omega
      · have hok2 : r.ok = false := by simpa using hok
        rw [successesOf_cons_fail r rs hok2]
        have hcl : collectLoop R (r :: rs) got best = collectLoop R rs got best := by
          simp [collectLoop, hok2]
        rw [hcl, ih got best h]

theorem bestOf_mem (init : Entry) (es : List Entry) :
    bestOf init es = init ∨ bestOf init es ∈ es := by
  induction es generalizing init with
  | nil => exact Or.inl rfl
  | cons e es ih =>
      have hstep : bestOf init (e :: es)
          = bestOf (if e.Timestamp > init.Timestamp then e else init) es := rfl
      rw [hstep]
      rcases ih (if e.Timestamp > init.Timestamp then e else init) with h | h
      · rw [h]
        by_cases hc : e.Timestamp > init.Timestamp
        · rw [if_pos hc]
          exact Or.inr (List.mem_cons_self e es)
        · rw [if_neg hc]
          exact Or.inl rfl
      · exact Or.inr (List.mem_cons_of_mem e h)

theorem bestOf_ts_ge (init : Entry) (es : List Entry) :
    init.Timestamp ≤ (bestOf init es).Timestamp
    ∧ ∀ e ∈ es, e.Timestamp ≤ (bestOf init es).Timestamp := by
  induction es generalizing init with
  | nil => simp [bestOf]
  | cons e es ih =>
      obtain ⟨ih1, ih2⟩ := ih (if e.Timestamp > init.Timestamp then e else init)
      have hstep : bestOf init (e :: es)
          = bestOf (if e.Timestamp > init.Timestamp then e else init) es := rfl
      have hinit : init.Timestamp
          ≤ (if e.Timestamp > init.Timestamp then e else init).Timestamp := by
        split_ifs with hc <;> omega
      have he : e.Timestamp
          ≤ (if e.Timestamp > init.Timestamp then e else init).Timestamp := by
        split_ifs with hc <;> omega
      refine ⟨hstep ▸ le_trans hinit ih1, ?_⟩
      intro x hx
      rw [hstep]
      rcases List.mem_cons.mp hx with rfl | hx
      · exact le_trans he ih1
      · exact ih2 x hx

theorem bestOf_nonpos (es : List Entry) (h : ∀ e ∈ es, e.Timestamp ≤ 0) :
    bestOf ⟨"", 0⟩ es = ⟨"", 0⟩ := by
  induction es with
  | nil => rfl
  | cons e es ih =>
      have he : e.Timestamp ≤ 0 := h e (List.mem_cons_self e es)
      have hstep : bestOf ⟨"", 0⟩ (e :: es)
          = bestOf (if e.Timestamp > (Entry.mk "" 0).Timestamp then e else ⟨"", 0⟩) es := rfl
      have hz : (Entry.mk "" 0).Timestamp = 0 := rfl
      rw [hstep, if_neg (by rw [hz]; omega)]
      exact ih (fun x hx => h x (List.mem_cons_of_mem e hx))

/-- C5 counterexample: with R = 2 and two successful responses whose
timestamps are 0 and -3, the read returns the zero entry ⟨"", 0⟩, which
is not among the collected responses at all — so the returned value is
not the maximum-timestamp entry among the first R successful responses. -/
theorem read_winner_not_among_responses :
    getHandler ⟨.Peer, [], 3, 2, 3⟩ "k" ⟨[]⟩ [⟨true, ⟨"a", 0⟩⟩, ⟨true, ⟨"b", -3⟩⟩]
      = .found ⟨"", 0⟩
    ∧ (Entry.mk "" 0) ∉ successesOf [⟨true, ⟨"a", 0⟩⟩, ⟨true, ⟨"b", -3⟩⟩] := by decide

/-- C5 amended: for R > 1, a read with no successful response among the
collected arrivals is NotFound; otherwise the returned entry is the
fold of the strict-greater comparison over the zero entry ⟨"", 0⟩ and
the first R successful responses in arrival order — i.e. the
maximum-timestamp entry among the zero entry and those responses, ties
favoring the earlier (so it is either the zero entry or one of the
responses, and no collected response has a larger timestamp). -/
theorem read_first_R_best (cfg : Config) (key : String) (s : Store)
    (arrivals : List ReadResult) (hk : key ≠ "") (hR : 1 < cfg.R) :
    ((successesOf arrivals).take cfg.R.toNat = [] →
        getHandler cfg key s arrivals = .notFound)
    ∧ ((successesOf arrivals).take cfg.R.toNat ≠ [] →
        getHandler cfg key s arrivals
            = .found (bestOf ⟨"", 0⟩ ((successesOf arrivals).take cfg.R.toNat))
        ∧ (bestOf ⟨"", 0⟩ ((successesOf arrivals).take cfg.R.toNat) = ⟨"", 0⟩
            ∨ bestOf ⟨"", 0⟩ ((successesOf arrivals).take cfg.R.toNat)
                ∈ (successesOf arrivals).take cfg.R.toNat)
        ∧ (∀ e ∈ (successesOf arrivals).take cfg.R.toNat,
            e.Timestamp
              ≤ (bestOf ⟨"", 0⟩ ((successesOf arrivals).take cfg.R.toNat)).Timestamp)) := by
  have hR1 : ¬ cfg.R = 1 := by omega
  have hcol := collect_spec cfg.R arrivals 0 ⟨"", 0⟩ (by omega)
  have hget : getHandler cfg key s arrivals
      = (if (collectLoop cfg.R arrivals 0 ⟨"", 0⟩).1 < 1 then .notFound
         else .found (collectLoop cfg.R arrivals 0 ⟨"", 0⟩).2) := by
    simp [getHandler, hk, hR1]
  rw [hcol] at hget
  simp only [Nat.zero_add, Nat.sub_zero] at hget
  constructor
  · intro hempty
    have hlen : (successesOf arrivals).length = 0 := by
      rcases List.take_eq_nil_iff.mp hempty with h | h
      · exfalso
        omega
      · simp [h]
    rw [hget]
    rw [if_pos (by omega)]
  · intro hne
    have hlen : (successesOf arrivals).length ≠ 0 := by
      intro h0
      exact hne (by simp [List.length_eq_zero.mp h0])
    rw [hget, if_neg (by omega)]
    exact ⟨rfl, bestOf_mem _ _, (bestOf_ts_ge _ _).2⟩

theorem read_first_R_best_witness :
    (("k" : String) ≠ "") ∧ ((1 : Int) < 2)
    ∧ ((successesOf [⟨true, ⟨"x", 5⟩⟩] : List Entry).take (2 : Int).toNat ≠ [])
    ∧ getHandler ⟨.Peer, [], 3, 2, 3⟩ "k" ⟨[]⟩ [⟨true, ⟨"x", 5⟩⟩]
        = .found (bestOf ⟨"", 0⟩ ((successesOf [⟨true, ⟨"x", 5⟩⟩]).take (2 : Int).toNat)) :=
  have h := read_first_R_best ⟨.Peer, [], 3, 2, 3⟩ "k" ⟨[]⟩ [⟨true, ⟨"x", 5⟩⟩]
    (by decide) (by decide)
  ⟨by decide, by decide, by decide, (h.2 (by decide)).1⟩

/-- C10: for R > 1, when at least one successful response arrives but
every successful response among the first R collected has timestamp
≤ 0, the read returns the zero entry ⟨"", 0⟩ — the running maximum
starts at the zero Entry and is replaced only on a strictly greater
timestamp. -/
theorem read_zero_entry_on_nonpos_timestamps (cfg : Config) (key : String) (s : Store)
    (arrivals : List ReadResult) (hk : key ≠ "") (hR : 1 < cfg.R)
    (hne : successesOf arrivals ≠ [])
    (hnp : ∀ e ∈ (successesOf arrivals).take cfg.R.toNat, e.Timestamp ≤ 0) :
    getHandler cfg key s arrivals = .found ⟨"", 0⟩ := by
  have hR1 : ¬ cfg.R = 1 := by omega
  have hcol := collect_spec cfg.R arrivals 0 ⟨"", 0⟩ (by omega)
  have hget : getHandler cfg key s arrivals
      = (if (collectLoop cfg.R arrivals 0 ⟨"", 0⟩).1 < 1 then .notFound
         else .found (collectLoop cfg.R arrivals 0 ⟨"", 0⟩).2) := by
    simp [getHandler, hk, hR1]
  rw [hcol] at hget
  simp only [Nat.zero_add, Nat.sub_zero] at hget
  have hlen : (successesOf arrivals).length ≠ 0 := by
    intro h0
    exact hne (List.length_eq_zero.mp h0)
  rw [hget, if_neg (by omega), bestOf_nonpos _ hnp]

theorem read_zero_entry_on_nonpos_timestamps_witness :
    (("k" : String) ≠ "") ∧ ((1 : Int) < 2)
    ∧ (successesOf [⟨true, ⟨"x", -1⟩⟩] ≠ [])
    ∧ getHandler ⟨.Peer, [], 3, 2, 3⟩ "k" ⟨[]⟩ [⟨true, ⟨"x", -1⟩⟩] = .found ⟨"", 0⟩ :=
  ⟨by decide, by decide, by decide,
    read_zero_entry_on_nonpos_timestamps ⟨.Peer, [], 3, 2, 3⟩ "k" ⟨[]⟩
      [⟨true, ⟨"x", -1⟩⟩] (by decide) (by decide) (by decide) (by decide)⟩

end KV
